import Mathlib

/-!
Verification of the Auto Node CLI installer (`auto_node_cli.py`).

The tool is a validation-and-orchestration CLI: it validates a ComfyUI
`custom_nodes` directory path, validates GitHub repository URLs against a
fixed regular expression, reads URL lists from files, stages required
installer files, persists the URL list, and delegates installation to a
subprocess.

The embedding below translates each method of `CustomNodeInstaller` into a
pure Lean function.  Filesystem and subprocess effects are made explicit:
filesystem queries become oracle parameters, the process working directory
is threaded as explicit state, and the subprocess is an opaque collaborator
represented by its possible outcomes (an exit code with captured output, or
a raised invocation error).
-/

namespace AutoNodeCLI

/-! ### The GitHub URL pattern

Source line 99: `pattern = r'^https://github\.com/[a-zA-Z0-9-]+/[a-zA-Z0-9-._]+/?$'`
used with `re.match(pattern, url)`.

The character class `[a-zA-Z0-9-]` of the owner segment holds ASCII letters,
digits and the hyphen; `[a-zA-Z0-9-._]` of the repo segment additionally
holds the dot and the underscore (inside a class, after the `0-9` range, the
`-` and `.` are literal characters in Python `re`).

Neither class holds `/` or a newline, so the greedy `+` runs are forced and
the pattern is matched deterministically: literal head, maximal owner run,
`/`, maximal repo run, then `/?$`.  Python's `$` (without `re.MULTILINE`)
matches at the end of the string or just before a newline that is the last
character, so after the optional slash the remainder must be empty or a
single final `'\n'`. -/

/-- Characters admitted by the owner class `[a-zA-Z0-9-]`. -/
def isOwnerChar (c : Char) : Bool :=
  c.isAlpha || c.isDigit || c = '-'

/-- Characters admitted by the repo class `[a-zA-Z0-9-._]`. -/
def isRepoChar (c : Char) : Bool :=
  c.isAlpha || c.isDigit || c = '-' || c = '.' || c = '_'

/-- Strip a literal sequence off the front of a character list, as the
regex engine consumes the literal part `https://github\.com/`. -/
def dropLit : List Char → List Char → Option (List Char)
  | [], cs => some cs
  | _ :: _, [] => none
  | p :: ps, c :: cs => if c = p then dropLit ps cs else none

/-- The literal head of the pattern, `https://github.com/`. -/
def ghHead : List Char := "https://github.com/".data

/-- `/?$` applied to the remainder after the repo run: the optional slash
followed by Python's `$` accepts exactly the empty remainder, a single final
newline, a single slash, or a slash followed by a single final newline. -/
def endOk (r : List Char) : Bool :=
  r == [] || r == ['\n'] || r == ['/'] || r == ['/', '\n']

/-- Match `[a-zA-Z0-9-]+/[a-zA-Z0-9-._]+/?$` against the remainder after the
literal head.  The owner and repo runs are the maximal runs of their classes
(forced, since neither class holds `/` or `'\n'`); the remainder after the
repo run must be accepted by `/?$`. -/
def matchTail (cs : List Char) : Bool :=
  if (cs.takeWhile isOwnerChar).isEmpty then false
  else
    match cs.dropWhile isOwnerChar with
    | '/' :: afterSlash =>
      if (afterSlash.takeWhile isRepoChar).isEmpty then false
      else endOk (afterSlash.dropWhile isRepoChar)
    | _ => false

/-- `re.match(r'^https://github\.com/[a-zA-Z0-9-]+/[a-zA-Z0-9-._]+/?$', url)`
as a Boolean on strings (source lines 99-100). -/
def githubMatch (url : String) : Bool :=
  match dropLit ghHead url.data with
  | some rest => matchTail rest
  | none => false

/-! ### validate_github_urls (source lines 81-108) -/

/-- The classification loop of `validate_github_urls` (source lines 97-103):
each URL is appended to `valid_urls` when it matches the pattern and to
`invalid_urls` otherwise, preserving input order. -/
def urlLoop : List String → List String → List String → List String × List String
  | [], valid_urls, invalid_urls => (valid_urls, invalid_urls)
  | url :: rest, valid_urls, invalid_urls =>
    if githubMatch url then urlLoop rest (valid_urls ++ [url]) invalid_urls
    else urlLoop rest valid_urls (invalid_urls ++ [url])

/-- `validate_github_urls` (source lines 81-108): returns
`(is_valid, error_message, valid_urls)`.  An empty input is rejected
outright; otherwise the URLs are classified and any invalid URL makes the
overall result a failure whose message lists the invalid URLs one per
line (`chr(10)` is the newline), while the valid subset is still returned. -/
def validate_github_urls (urls : List String) : Bool × String × List String :=
  if urls.isEmpty then (false, "No repository URLs provided", [])
  else
    let cls := urlLoop urls [] []
    if ¬ cls.2.isEmpty then
      (false, "Invalid GitHub URLs found:\n" ++ String.intercalate "\n" cls.2, cls.1)
    else
      (true, "All URLs are valid", cls.1)

/-! ### Text primitives used by the embedding

Python's `str.strip()` removes whitespace from both ends of a string;
iterating a text file yields its newline-separated lines. -/

/-- Python's `str.strip()` on a character list: drop whitespace from both
ends. -/
def pyStrip (cs : List Char) : List Char :=
  ((cs.dropWhile Char.isWhitespace).reverse.dropWhile Char.isWhitespace).reverse

/-- `str.strip()` on strings. -/
def stripStr (s : String) : String :=
  String.mk (pyStrip s.data)

/-- Split a character list at newline characters, as iterating a Python text
file visits its lines (the line terminators are removed here; the code
strips each line anyway). -/
def splitOnNl : List Char → List (List Char)
  | [] => [[]]
  | c :: rest =>
    if c = '\n' then [] :: splitOnNl rest
    else
      match splitOnNl rest with
      | [] => [[c]]
      | l :: ls => (c :: l) :: ls

/-- The lines of a file's contents, as strings. -/
def fileLines (contents : String) : List String :=
  (splitOnNl contents.data).map String.mk

/-- `'\n'.join(urls)` (source line 198). -/
def joinNl (urls : List String) : String :=
  String.mk (List.intercalate ['\n'] (urls.map String.data))

/-! ### read_urls_from_file (source lines 110-134)

The file system is abstracted as the optional contents of the file:
`none` when `os.path.exists(file_path)` is false, `some c` when the file
exists and reads as `c`. -/

/-- `read_urls_from_file` (source lines 110-134): returns
`(success, message, urls)`.  The line comprehension
`[line.strip() for line in f if line.strip()]` strips each line and keeps
the non-empty results in order. -/
def read_urls_from_file (contents : Option String) (file_path : String) :
    Bool × String × List String :=
  match contents with
  | none => (false, "File not found: " ++ file_path, [])
  | some c =>
    if (((fileLines c).map stripStr).filter (fun l => l ≠ "")).isEmpty then
      (false, "No URLs found in the file", [])
    else
      (true,
        "Successfully read " ++
          toString (((fileLines c).map stripStr).filter (fun l => l ≠ "")).length ++
          " URLs from file",
        ((fileLines c).map stripStr).filter (fun l => l ≠ ""))

/-! ### validate_path (source lines 42-79)

The filesystem queries made by `validate_path` are abstracted as oracles;
each query may also raise (`Except.error`), modelling an `OSError`-style
exception, which the method's `try/except` converts into a
`"Error validating path: ..."` failure. -/

/-- The filesystem's answers to the queries `Path(path).exists()`,
`Path(path).is_dir()`, `Path(path).name`, and
`(Path(path).parent / "main.py").exists()`. -/
structure PathOps where
  pexists : Except String Bool
  is_dir : Except String Bool
  baseName : Except String String
  parentMainExists : Except String Bool

/-- `validate_path` (source lines 42-79): returns `(is_valid, error_message)`.
The checks run in order — empty/whitespace-only, existence, directory,
base name `custom_nodes`, marker `main.py` in the parent — returning the
first failing reason; any exception from a filesystem query is caught and
reported. -/
def validate_path (path : String) (ops : PathOps) : Bool × String :=
  if stripStr path = "" then (false, "Path cannot be empty!")
  else
    match ops.pexists with
    | .error e => (false, "Error validating path: " ++ e)
    | .ok ex =>
      if ¬ ex then (false, "Path does not exist: " ++ path)
      else
        match ops.is_dir with
        | .error e => (false, "Error validating path: " ++ e)
        | .ok dir =>
          if ¬ dir then (false, "Path is not a directory: " ++ path)
          else
            match ops.baseName with
            | .error e => (false, "Error validating path: " ++ e)
            | .ok nm =>
              if nm ≠ "custom_nodes" then (false, "Directory must be named 'custom_nodes'")
              else
                match ops.parentMainExists with
                | .error e => (false, "Error validating path: " ++ e)
                | .ok mainOk =>
                  if ¬ mainOk then
                    (false, "Directory does not appear to be a ComfyUI installation (main.py not found in parent directory)")
                  else (true, "Path is valid")

/-! ### copy_required_files (source lines 136-163)

The bundled resource directory is abstracted as a flag for
`source_dir.exists()` plus a predicate telling which required files exist
in it.  The model also returns the list of files copied before the
function returned, so that partial copies are observable. -/

/-- `self.required_files` (source lines 33-37). -/
def required_files : List String :=
  ["clone-custom-nodes.py", "package-preparation.py", "start-prep.bat"]

/-- The copy loop of `copy_required_files` (source lines 153-157): for each
required file in order, fail if it is missing from the source, otherwise
copy it and continue.  Returns the result together with the files copied. -/
def copyLoop (srcExists : String → Bool) :
    List String → List String → (Bool × String) × List String
  | [], copied => ((true, "Required files copied successfully"), copied)
  | file :: rest, copied =>
    if ¬ srcExists file then ((false, "Required file not found: " ++ file), copied)
    else copyLoop srcExists rest (copied ++ [file])

/-- `copy_required_files` (source lines 136-163): fails when the utils
directory is absent, then copies the required files one by one, failing at
the first missing file. -/
def copy_required_files (utilsDirExists : Bool) (utils_dir : String)
    (srcExists : String → Bool) : (Bool × String) × List String :=
  if ¬ utilsDirExists then ((false, "Utils directory not found: " ++ utils_dir), [])
  else copyLoop srcExists required_files []

/-! ### save_repos (source lines 165-205)

The write of `comfy-repos.txt` is modelled by returning the written
contents (`'\n'.join(valid_urls)`): `none` when nothing was written. -/

/-- `save_repos` (source lines 165-205): validates the path, validates the
URLs, copies the required files, then writes the validated URL list joined
by newline into `comfy-repos.txt`.  Returns `(success, message)` together
with the contents written to `comfy-repos.txt`, if any. -/
def save_repos (repos : List String) (custom_nodes_path : String) (ops : PathOps)
    (utilsDirExists : Bool) (utils_dir : String) (srcExists : String → Bool) :
    (Bool × String) × Option String :=
  let pv := validate_path custom_nodes_path ops
  if ¬ pv.1 then ((false, "Error: " ++ pv.2), none)
  else
    let uv := validate_github_urls repos
    if ¬ uv.1 then ((false, "Error: " ++ uv.2.1), none)
    else
      let cp := copy_required_files utilsDirExists utils_dir srcExists
      if ¬ cp.1.1 then ((false, "Error: " ++ cp.1.2), none)
      else ((true, "Repository list and required files saved successfully!"),
            some (joinNl uv.2.2))

/-! ### install_nodes (source lines 207-267)

The subprocess is an opaque collaborator: its behaviour on a given run is
either completion with an exit code and captured stdout/stderr, or an
invocation-level exception.  The process working directory is threaded as
explicit state; `os.chdir(custom_nodes_path)` happens before the call and
the `finally:` block restores the original directory on both outcomes,
after which the `except:` clause turns an exception into a failure result. -/

/-- The possible behaviours of the `subprocess.run` call. -/
inductive SubprocOutcome where
  | completed (returncode : Int) (stdout stderr : String)
  | raised (msg : String)

/-- The report built from the captured output (source lines 246-258):
stdout (followed by a newline) when non-empty, an `Errors:` section when
stderr is non-empty, a separator of fifty `=` and the completion banner,
the whole stripped. -/
def formattedOutput (stdout stderr : String) : String :=
  let f1 := if stdout ≠ "" then stdout ++ "\n" else ""
  let f2 := if stderr ≠ "" then f1 ++ "\nErrors:\n" ++ stderr else f1
  stripStr (f2 ++ "\n" ++ String.mk (List.replicate 50 '=') ++ "\n" ++
    "Installation process completed!")

/-- `install_nodes` (source lines 207-267): validates the path, requires the
staged `clone-custom-nodes.py`, changes the working directory to the target,
runs the clone script, and restores the working directory in a `finally:`
block on every outcome.  Returns the `(success, output)` result, the final
working directory, and the working directory the subprocess was invoked in
(`none` when the call was never reached). -/
def install_nodes (custom_nodes_path : String) (ops : PathOps)
    (scriptExists : Bool) (outcome : SubprocOutcome) (cwd0 : String) :
    (Bool × String) × String × Option String :=
  let pv := validate_path custom_nodes_path ops
  if ¬ pv.1 then ((false, "Error: " ++ pv.2), cwd0, none)
  else if ¬ scriptExists then
    ((false, "Error: clone-custom-nodes.py not found! Please save repository list first."),
      cwd0, none)
  else
    let current_dir := cwd0
    let invokedIn := custom_nodes_path
    match outcome with
    | .completed rc stdout stderr =>
      ((rc == 0, formattedOutput stdout stderr), current_dir, some invokedIn)
    | .raised m =>
      ((false, "Installation error: " ++ m), current_dir, some invokedIn)

/-! ### Canonical characterization of the pattern -/

/-- The shape of the character lists accepted by the code's pattern: the
literal head, a nonempty owner run over `[a-zA-Z0-9-]`, a slash, a nonempty
repo run over `[a-zA-Z0-9-._]`, an optional slash, and optionally one final
newline (admitted by Python's `$`). -/
def GithubShape (cs : List Char) : Prop :=
  ∃ owner repo sl nl : List Char,
    owner ≠ [] ∧ (∀ c ∈ owner, isOwnerChar c = true) ∧
    repo ≠ [] ∧ (∀ c ∈ repo, isRepoChar c = true) ∧
    (sl = [] ∨ sl = ['/']) ∧ (nl = [] ∨ nl = ['\n']) ∧
    cs = ghHead ++ owner ++ '/' :: (repo ++ sl ++ nl)

/-- Modelled from the spec's words for the validity claim: scheme `https`,
literal host `github.com`, owner over letters/digits/hyphen, repo over
letters/digits/hyphen/dot/underscore, optional trailing slash, and nothing
after that (end of string). -/
def SpecStrictShape (cs : List Char) : Prop :=
  ∃ owner repo sl : List Char,
    owner ≠ [] ∧ (∀ c ∈ owner, isOwnerChar c = true) ∧
    repo ≠ [] ∧ (∀ c ∈ repo, isRepoChar c = true) ∧
    (sl = [] ∨ sl = ['/']) ∧
    cs = ghHead ++ owner ++ '/' :: (repo ++ sl)

/-- Modelled from the spec's data-model words: `https://<host>/<owner>/<repo>[/]`
with BOTH the owner and the repo segment restricted to alphanumeric, hyphen,
underscore, and dot characters. -/
def SpecRelaxedOwnerShape (cs : List Char) : Prop :=
  ∃ owner repo sl : List Char,
    owner ≠ [] ∧ (∀ c ∈ owner, isRepoChar c = true) ∧
    repo ≠ [] ∧ (∀ c ∈ repo, isRepoChar c = true) ∧
    (sl = [] ∨ sl = ['/']) ∧
    cs = ghHead ++ owner ++ '/' :: (repo ++ sl)

/-! #### Helper lemmas about runs and the matcher -/

theorem dropLit_eq_some_iff (p cs r : List Char) :
    dropLit p cs = some r ↔ cs = p ++ r := by
  induction p generalizing cs with
  | nil =>
    simp [dropLit]
  | cons x xs ih =>
    cases cs with
    | nil => simp [dropLit]
    | cons c cs' =>
      by_cases hc : c = x
      · subst hc
        simp [dropLit, ih]
      · simp [dropLit, hc]

theorem takeWhile_append_cons (p : Char → Bool) (l : List Char) (c : Char)
    (r : List Char) (hl : ∀ x ∈ l, p x = true) (hc : p c = false) :
    (l ++ c :: r).takeWhile p = l ∧ (l ++ c :: r).dropWhile p = c :: r := by
  induction l with
  | nil => simp [List.takeWhile, List.dropWhile, hc]
  | cons a l ih =>
    have ha : p a = true := hl a (by simp)
    have ih' := ih (fun x hx => hl x (by simp [hx]))
    simp [List.takeWhile, List.dropWhile, ha, ih'.1, ih'.2]

theorem takeWhile_eq_self (p : Char → Bool) (l : List Char)
    (hl : ∀ x ∈ l, p x = true) :
    l.takeWhile p = l ∧ l.dropWhile p = [] := by
  induction l with
  | nil => simp
  | cons a l ih =>
    have ha : p a = true := hl a (by simp)
    have ih' := ih (fun x hx => hl x (by simp [hx]))
    simp [List.takeWhile, List.dropWhile, ha, ih'.1, ih'.2]

theorem mem_takeWhile_sat (p : Char → Bool) (l : List Char) :
    ∀ x ∈ l.takeWhile p, p x = true := by
  induction l with
  | nil => simp
  | cons a l ih =>
    by_cases ha : p a
    · simp only [List.takeWhile, ha]
      intro x hx
      rcases List.mem_cons.mp hx with h | h
      · exact h ▸ ha
      · exact ih x h
    · simp [List.takeWhile, ha]

theorem endOk_iff (r : List Char) :
    endOk r = true ↔ r = [] ∨ r = ['\n'] ∨ r = ['/'] ∨ r = ['/', '\n'] := by
  simp [endOk, or_assoc]

theorem matchTail_run (owner repo tailR : List Char)
    (hone : owner ≠ []) (howner : ∀ c ∈ owner, isOwnerChar c = true)
    (hrne : repo ≠ []) (hrepo : ∀ c ∈ repo, isRepoChar c = true)
    (htail : ∀ c : Char, tailR.head? = some c → isRepoChar c = false) :
    matchTail (owner ++ '/' :: (repo ++ tailR)) = endOk tailR := by
  have hsl : isOwnerChar '/' = false := by decide
  obtain ⟨ht1, hd1⟩ :=
    takeWhile_append_cons isOwnerChar owner '/' (repo ++ tailR) howner hsl
  have hrt : (repo ++ tailR).takeWhile isRepoChar = repo ∧
      (repo ++ tailR).dropWhile isRepoChar = tailR := by
    cases tailR with
    | nil => simpa using takeWhile_eq_self isRepoChar repo hrepo
    | cons c tl => exact takeWhile_append_cons isRepoChar repo c tl hrepo (htail c rfl)
  unfold matchTail
  rw [ht1, hd1]
  simp [hone, hrt.1, hrt.2, hrne]

theorem matchTail_iff (cs : List Char) :
    matchTail cs = true ↔
      ∃ owner repo sl nl : List Char,
        owner ≠ [] ∧ (∀ c ∈ owner, isOwnerChar c = true) ∧
        repo ≠ [] ∧ (∀ c ∈ repo, isRepoChar c = true) ∧
        (sl = [] ∨ sl = ['/']) ∧ (nl = [] ∨ nl = ['\n']) ∧
        cs = owner ++ '/' :: (repo ++ sl ++ nl) := by
  constructor
  · intro h
    unfold matchTail at h
    split at h
    · exact absurd h (by simp)
    next ho =>
      split at h
      next afterSlash heq =>
        split at h
        · exact absurd h (by simp)
        next hr =>
          have hcs : cs = cs.takeWhile isOwnerChar ++
              '/' :: (afterSlash.takeWhile isRepoChar ++ afterSlash.dropWhile isRepoChar) := by
            conv_lhs => rw [← List.takeWhile_append_dropWhile (p := isOwnerChar) (l := cs)]
            rw [heq, List.takeWhile_append_dropWhile]
          have hend := (endOk_iff _).mp h
          have hone : cs.takeWhile isOwnerChar ≠ [] := by
            intro hnil
            rw [hnil] at ho
            exact ho rfl
          have hrne : afterSlash.takeWhile isRepoChar ≠ [] := by
            intro hnil
            rw [hnil] at hr
            exact hr rfl
          rcases hend with hd | hd | hd | hd <;> rw [hd] at hcs
          · exact ⟨cs.takeWhile isOwnerChar, afterSlash.takeWhile isRepoChar, [], [],
              hone, mem_takeWhile_sat _ _, hrne, mem_takeWhile_sat _ _,
              Or.inl rfl, Or.inl rfl, by simpa using hcs⟩
          · exact ⟨cs.takeWhile isOwnerChar, afterSlash.takeWhile isRepoChar, [], ['\n'],
              hone, mem_takeWhile_sat _ _, hrne, mem_takeWhile_sat _ _,
              Or.inl rfl, Or.inr rfl, by simpa using hcs⟩
          · exact ⟨cs.takeWhile isOwnerChar, afterSlash.takeWhile isRepoChar, ['/'], [],
              hone, mem_takeWhile_sat _ _, hrne, mem_takeWhile_sat _ _,
              Or.inr rfl, Or.inl rfl, by simpa using hcs⟩
          · exact ⟨cs.takeWhile isOwnerChar, afterSlash.takeWhile isRepoChar, ['/'], ['\n'],
              hone, mem_takeWhile_sat _ _, hrne, mem_takeWhile_sat _ _,
              Or.inr rfl, Or.inr rfl, by simpa using hcs⟩
      next => exact absurd h (by simp)
  · rintro ⟨owner, repo, sl, nl, hone, howner, hrne, hrepo, hsl, hnl, rfl⟩
    have htail : ∀ c : Char, (sl ++ nl).head? = some c → isRepoChar c = false := by
      intro c hc
      rcases hsl with rfl | rfl <;> rcases hnl with rfl | rfl <;>
        simp_all <;> subst hc <;> decide
    rw [List.append_assoc repo sl nl] at *
    rw [matchTail_run owner repo (sl ++ nl) hone howner hrne hrepo htail]
    rcases hsl with rfl | rfl <;> rcases hnl with rfl | rfl <;> decide

theorem githubMatch_iff (s : String) : githubMatch s = true ↔ GithubShape s.data := by
  unfold githubMatch
  cases hdrop : dropLit ghHead s.data with
  | none =>
    simp only [Bool.false_eq_true, false_iff]
    rintro ⟨owner, repo, sl, nl, _, _, _, _, _, _, hcs⟩
    have : dropLit ghHead s.data = some (owner ++ '/' :: (repo ++ sl ++ nl)) := by
      rw [dropLit_eq_some_iff, hcs, List.append_assoc]
    rw [hdrop] at this
    exact absurd this (by simp)
  | some rest =>
    have hr : s.data = ghHead ++ rest := (dropLit_eq_some_iff _ _ _).mp hdrop
    rw [matchTail_iff]
    unfold GithubShape
    constructor
    · rintro ⟨owner, repo, sl, nl, h1, h2, h3, h4, h5, h6, hrest⟩
      exact ⟨owner, repo, sl, nl, h1, h2, h3, h4, h5, h6, by
        rw [hr, hrest]
        simp [List.append_assoc]⟩
    · rintro ⟨owner, repo, sl, nl, h1, h2, h3, h4, h5, h6, hcs⟩
      refine ⟨owner, repo, sl, nl, h1, h2, h3, h4, h5, h6, ?_⟩
      have : ghHead ++ rest = ghHead ++ (owner ++ '/' :: (repo ++ sl ++ nl)) := by
        rw [← hr, hcs, List.append_assoc]
      exact List.append_cancel_left this

/-! ### Helper lemmas about the classification loop -/

theorem urlLoop_spec (urls v i : List String) :
    urlLoop urls v i = (v ++ urls.filter (fun u => githubMatch u),
      i ++ urls.filter (fun u => ! githubMatch u)) := by
  induction urls generalizing v i with
  | nil => simp [urlLoop]
  | cons u rest ih =>
    by_cases h : githubMatch u <;>
      simp [urlLoop, h, ih, List.filter_cons]

theorem valid_subset_eq (urls : List String) :
    (validate_github_urls urls).2.2 = urls.filter (fun u => githubMatch u) := by
  rcases urls with _ | ⟨u, rest⟩
  · simp [validate_github_urls]
  · simp only [validate_github_urls, List.isEmpty_cons, Bool.false_eq_true, if_false,
      urlLoop_spec, List.nil_append]
    split <;> rfl

theorem validate_fst_true_iff (urls : List String) :
    (validate_github_urls urls).1 = true ↔
      urls ≠ [] ∧ ∀ u ∈ urls, githubMatch u = true := by
  rcases urls with _ | ⟨u, rest⟩
  · simp [validate_github_urls]
  · simp only [validate_github_urls, List.isEmpty_cons, Bool.false_eq_true, if_false,
      urlLoop_spec, List.nil_append]
    split
    next hinv =>
      simp only [List.isEmpty_iff, List.filter_eq_nil_iff] at hinv
      push_neg at hinv
      obtain ⟨w, hw, hwm⟩ := hinv
      simp only [Bool.not_eq_true'] at hwm
      constructor
      · intro h
        exact absurd h (by simp)
      · rintro ⟨-, hall⟩
        exact absurd (hall w hw) (by simp [hwm])
    next hinv =>
      simp only [not_not, List.isEmpty_iff, List.filter_eq_nil_iff] at hinv
      simp only [true_iff, ne_eq, reduceCtorEq, not_false_eq_true, true_and]
      intro x hx
      have := hinv x hx
      simpa using this

theorem validate_invalid_case (urls : List String) (hne : urls ≠ [])
    (hinv : urls.filter (fun u => ! githubMatch u) ≠ []) :
    validate_github_urls urls =
      (false, "Invalid GitHub URLs found:\n" ++
          String.intercalate "\n" (urls.filter (fun u => ! githubMatch u)),
        urls.filter (fun u => githubMatch u)) := by
  rcases urls with _ | ⟨u, rest⟩
  · exact absurd rfl hne
  · simp only [validate_github_urls, List.isEmpty_cons, Bool.false_eq_true, if_false,
      urlLoop_spec, List.nil_append]
    rw [if_pos]
    simpa [List.isEmpty_iff] using hinv

/-! ### Helper lemmas about characters of matching URLs -/

theorem ownerChar_not_ws (c : Char) (h : isOwnerChar c = true) :
    c.isWhitespace = false := by
  cases hw : c.isWhitespace
  · rfl
  · exfalso
    simp only [Char.isWhitespace, Bool.or_eq_true, decide_eq_true_eq, or_assoc] at hw
    rcases hw with rfl | rfl | rfl | rfl <;> exact absurd h (by decide)

theorem repoChar_not_ws (c : Char) (h : isRepoChar c = true) :
    c.isWhitespace = false := by
  cases hw : c.isWhitespace
  · rfl
  · exfalso
    simp only [Char.isWhitespace, Bool.or_eq_true, decide_eq_true_eq, or_assoc] at hw
    rcases hw with rfl | rfl | rfl | rfl <;> exact absurd h (by decide)

theorem ghHead_not_ws : ∀ c ∈ ghHead, c.isWhitespace = false := by decide

theorem shape_ne_nil (cs : List Char) (h : GithubShape cs) : cs ≠ [] := by
  obtain ⟨owner, repo, sl, nl, -, -, -, -, -, -, rfl⟩ := h
  have hh : ghHead ≠ [] := by decide
  intro hc
  exact hh (List.append_eq_nil.mp (List.append_eq_nil.mp hc).1).1

theorem shape_no_ws (cs : List Char) (h : GithubShape cs) (hnl : '\n' ∉ cs) :
    ∀ c ∈ cs, c.isWhitespace = false := by
  obtain ⟨owner, repo, sl, nl, h1, h2, h3, h4, h5, h6, rfl⟩ := h
  have hnl0 : nl = [] := by
    rcases h6 with rfl | rfl
    · rfl
    · exact absurd (by simp : '\n' ∈ _) hnl
  subst hnl0
  intro c hc
  simp only [List.append_nil, List.mem_append, List.mem_cons] at hc
  rcases hc with (hc | hc) | hc | hc | hc
  · exact ghHead_not_ws c hc
  · exact ownerChar_not_ws c (h2 c hc)
  · subst hc; decide
  · exact repoChar_not_ws c (h4 c hc)
  · rcases h5 with rfl | rfl
    · cases hc
    · simp only [List.mem_singleton] at hc
      subst hc; decide

theorem specStrict_last (cs : List Char) (h : SpecStrictShape cs) :
    ∀ c : Char, cs.getLast? = some c → isRepoChar c = true ∨ c = '/' := by
  obtain ⟨owner, repo, sl, h1, h2, h3, h4, h5, rfl⟩ := h
  rcases h5 with rfl | rfl
  · intro c hc
    left
    rw [List.append_nil] at hc
    rw [List.getLast?_append_of_ne_nil _ (by simp : '/' :: repo ≠ [])] at hc
    rw [show '/' :: repo = ['/'] ++ repo from rfl,
      List.getLast?_append_of_ne_nil _ h3] at hc
    have hmem : c ∈ repo := by
      have := List.dropLast_append_getLast? c hc
      rw [← this]
      simp
    exact h4 c hmem
  · intro c hc
    right
    rw [show '/' :: (repo ++ ['/']) = ('/' :: repo) ++ ['/'] from rfl,
      ← List.append_assoc, List.getLast?_concat] at hc
    exact (Option.some_inj.mp hc).symm

/-! ### Helper lemmas about line splitting and stripping -/

theorem splitOnNl_no_nl (l : List Char) (h : '\n' ∉ l) : splitOnNl l = [l] := by
  induction l with
  | nil => rfl
  | cons c rest ih =>
    have hc : ¬ c = '\n' := fun hcc => h (by simp [hcc])
    have hr : '\n' ∉ rest := fun hm => h (by simp [hm])
    simp [splitOnNl, hc, ih hr]

theorem splitOnNl_append (l r : List Char) (h : '\n' ∉ l) :
    splitOnNl (l ++ '\n' :: r) = l :: splitOnNl r := by
  induction l with
  | nil => simp [splitOnNl]
  | cons c rest ih =>
    have hc : ¬ c = '\n' := fun hcc => h (by simp [hcc])
    have hr : '\n' ∉ rest := fun hm => h (by simp [hm])
    simp [splitOnNl, hc, ih hr]

theorem splitOnNl_intercalate (ls : List (List Char)) (hne : ls ≠ [])
    (h : ∀ l ∈ ls, '\n' ∉ l) :
    splitOnNl (List.intercalate ['\n'] ls) = ls := by
  induction ls with
  | nil => exact absurd rfl hne
  | cons x xs ih =>
    cases xs with
    | nil =>
      have : List.intercalate ['\n'] [x] = x := by
        simp [List.intercalate, List.intersperse]
      rw [this, splitOnNl_no_nl x (h x (by simp))]
    | cons y ys =>
      have hint : List.intercalate ['\n'] (x :: y :: ys) =
          x ++ '\n' :: List.intercalate ['\n'] (y :: ys) := by
        simp [List.intercalate, List.intersperse]
      rw [hint, splitOnNl_append x _ (h x (by simp)),
        ih (by simp) (fun l hl => h l (by simp [hl]))]

theorem dropWhile_all_false (p : Char → Bool) (l : List Char)
    (h : ∀ c ∈ l, p c = false) : l.dropWhile p = l := by
  cases l with
  | nil => rfl
  | cons c rest => simp [List.dropWhile, h c (by simp)]

theorem pyStrip_no_ws (l : List Char)
    (h : ∀ c ∈ l, Char.isWhitespace c = false) : pyStrip l = l := by
  unfold pyStrip
  rw [dropWhile_all_false _ l h,
    dropWhile_all_false _ l.reverse (fun c hc => h c (List.mem_reverse.mp hc)),
    List.reverse_reverse]

theorem stripStr_eq_self (s : String)
    (h : ∀ c ∈ s.data, Char.isWhitespace c = false) : stripStr s = s := by
  unfold stripStr
  rw [pyStrip_no_ws _ h]

/-! ### Helper lemmas about the copy loop -/

theorem copyLoop_success_iff (srcExists : String → Bool) (fs copied : List String) :
    (copyLoop srcExists fs copied).1.1 = true ↔ ∀ f ∈ fs, srcExists f = true := by
  induction fs generalizing copied with
  | nil => simp [copyLoop]
  | cons f rest ih =>
    by_cases h : srcExists f <;> simp [copyLoop, h, ih]

/-! ### Claim theorems -/

/-- C3: `validate_github_urls` on an empty list returns failure with the
no-URLs reason and an empty subset; on a non-empty list with at least one
non-matching URL the result is failure, the message enumerates exactly the
invalid URLs one per line, and the matched subset is still returned; the
result is success if and only if the input is non-empty and every URL
matches. -/
theorem validate_github_urls_all_or_nothing (urls : List String) :
    validate_github_urls [] = (false, "No repository URLs provided", []) ∧
    (urls ≠ [] → urls.filter (fun u => ! githubMatch u) ≠ [] →
      validate_github_urls urls =
        (false, "Invalid GitHub URLs found:\n" ++
            String.intercalate "\n" (urls.filter (fun u => ! githubMatch u)),
          urls.filter (fun u => githubMatch u))) ∧
    ((validate_github_urls urls).1 = true ↔
      urls ≠ [] ∧ ∀ u ∈ urls, githubMatch u = true) :=
  ⟨rfl, validate_invalid_case urls, validate_fst_true_iff urls⟩

/-- C3 witness: the spec's scenario, instantiated: one valid URL and the
string `not-a-url` give failure, the message lists `not-a-url`, and the
valid subset holds the matching URL. -/
theorem validate_github_urls_all_or_nothing_witness :
    validate_github_urls ["https://github.com/foo/bar", "not-a-url"] =
      (false, "Invalid GitHub URLs found:\nnot-a-url", ["https://github.com/foo/bar"]) := by
  have h := (validate_github_urls_all_or_nothing
      ["https://github.com/foo/bar", "not-a-url"]).2.1 (by decide) (by decide)
  exact h.trans (by decide)

/-- C1 counterexample: the claim's pattern requires nothing after the repo
segment or trailing slash (end of string), but the code classifies
`"https://github.com/aa/bb\n"` — an otherwise-valid URL followed by a
newline — as valid, so the claimed equivalence fails at this input. -/
theorem url_classification_cex :
    githubMatch "https://github.com/aa/bb\n" = true ∧
    (validate_github_urls ["https://github.com/aa/bb\n"]).2.2 =
      ["https://github.com/aa/bb\n"] ∧
    ¬ SpecStrictShape "https://github.com/aa/bb\n".data := by
  refine ⟨by decide, by decide, ?_⟩
  intro h
  rcases specStrict_last _ h '\n' (by decide) with h1 | h1 <;>
    exact absurd h1 (by decide)

/-- C1 (amended): a string is classified valid by `validate_github_urls` iff
it matches scheme `https`, host `github.com`, an owner of one or more
letters, digits, or hyphens, a repo of one or more letters, digits, hyphens,
dots, or underscores, an optional trailing slash, and then either the end of
the string or one final newline character; every string not of this shape is
excluded from the valid subset and makes the overall result a failure. -/
theorem url_classification (urls : List String) (u : String) :
    (u ∈ (validate_github_urls urls).2.2 ↔ u ∈ urls ∧ GithubShape u.data) ∧
    (u ∈ urls → ¬ GithubShape u.data →
      (validate_github_urls urls).1 = false ∧ u ∉ (validate_github_urls urls).2.2) := by
  constructor
  · rw [valid_subset_eq, List.mem_filter]
    exact and_congr_right fun _ => githubMatch_iff u
  · intro hu hshape
    have hm : githubMatch u = false := by
      cases hgm : githubMatch u
      · rfl
      · exact absurd ((githubMatch_iff u).mp hgm) hshape
    constructor
    · cases hv : (validate_github_urls urls).1
      · rfl
      · obtain ⟨-, hall⟩ := (validate_fst_true_iff urls).mp hv
        exact absurd (hall u hu) (by simp [hm])
    · rw [valid_subset_eq, List.mem_filter]
      simp [hm]

/-- C1 witness: on the list `["https://github.com/foo/bar", "not-a-url"]`,
the matching URL is in the valid subset and the non-matching one forces the
failure flag. -/
theorem url_classification_witness :
    "https://github.com/foo/bar" ∈
      (validate_github_urls ["https://github.com/foo/bar", "not-a-url"]).2.2 ∧
    (validate_github_urls ["https://github.com/foo/bar", "not-a-url"]).1 = false := by
  constructor
  · exact (url_classification ["https://github.com/foo/bar", "not-a-url"]
      "https://github.com/foo/bar").1.mpr
      ⟨by decide,
        ⟨"foo".data, "bar".data, [], [], by decide, by decide, by decide, by decide,
          Or.inl rfl, Or.inl rfl, by decide⟩⟩
  · refine ((url_classification ["https://github.com/foo/bar", "not-a-url"]
      "not-a-url").2 (by decide) ?_).1
    intro hs
    have := (githubMatch_iff "not-a-url").mpr hs
    exact absurd this (by decide)

/-- C2 counterexample: the claim admits underscore and dot in the owner
segment and calls `https://github.com/some.owner/repo` valid; that string
matches the spec's relaxed-owner shape, yet the code rejects it. -/
theorem owner_charset_cex :
    SpecRelaxedOwnerShape "https://github.com/some.owner/repo".data ∧
    validate_github_urls ["https://github.com/some.owner/repo"] =
      (false, "Invalid GitHub URLs found:\nhttps://github.com/some.owner/repo", []) := by
  constructor
  · exact ⟨"some.owner".data, "repo".data, [], by decide, by decide, by decide,
      by decide, Or.inl rfl, by decide⟩
  · decide

/-- C2 (amended): a RepositoryURL string is accepted iff it matches
`https://github.com/<owner>/<repo>` with an optional trailing slash and
optionally one final newline, where the owner segment is restricted to
alphanumeric and hyphen characters only, and the repo segment to
alphanumeric, hyphen, underscore, and dot; an owner containing an
underscore or a dot is invalid. -/
theorem github_url_accepted_iff (s : String) :
    githubMatch s = true ↔ GithubShape s.data :=
  githubMatch_iff s

/-- C10: the input `"https://github.com/owner/repo\n"` — an otherwise-valid
URL followed by a single trailing newline — is accepted as valid by
`validate_github_urls`, although it does not end at the repo segment or
trailing slash: it has no strict-shape decomposition. -/
theorem trailing_newline_accepted :
    validate_github_urls ["https://github.com/owner/repo\n"] =
      (true, "All URLs are valid", ["https://github.com/owner/repo\n"]) ∧
    ¬ SpecStrictShape "https://github.com/owner/repo\n".data := by
  refine ⟨by decide, ?_⟩
  intro h
  rcases specStrict_last _ h '\n' (by decide) with h1 | h1 <;>
    exact absurd h1 (by decide)

theorem validate_all_valid (urls : List String) (hne : urls ≠ [])
    (hall : ∀ u ∈ urls, githubMatch u = true) :
    validate_github_urls urls = (true, "All URLs are valid", urls) := by
  rcases urls with _ | ⟨u, rest⟩
  · exact absurd rfl hne
  · have hfil : (u :: rest).filter (fun x => ! githubMatch x) = [] :=
      List.filter_eq_nil_iff.mpr (fun a ha => by simp [hall a ha])
    simp [validate_github_urls, urlLoop_spec, hfil, List.filter_eq_self.mpr hall]

theorem map_mk_data (l : List String) : l.map (String.mk ∘ String.data) = l := by
  induction l with
  | nil => rfl
  | cons u rest ih =>
    rw [List.map_cons, ih]
    rfl

theorem map_eq_self_of (l : List String) (f : String → String)
    (h : ∀ u ∈ l, f u = u) : l.map f = l := by
  induction l with
  | nil => rfl
  | cons u rest ih =>
    rw [List.map_cons, h u (by simp), ih (fun x hx => h x (by simp [hx]))]

theorem copyLoop_all_success (srcExists : String → Bool) (fs copied : List String)
    (h : ∀ f ∈ fs, srcExists f = true) :
    copyLoop srcExists fs copied =
      ((true, "Required files copied successfully"), copied ++ fs) := by
  induction fs generalizing copied with
  | nil => simp [copyLoop]
  | cons f rest ih =>
    have hf : srcExists f = true := h f (by simp)
    rw [copyLoop, if_neg (by simp [hf]), ih (copied ++ [f]) (fun x hx => h x (by simp [hx]))]
    simp

/-- C4 counterexample: `"https://github.com/a/b\n"` matches the validation
pattern, `save_repos` persists it verbatim inside the joined URL list, but
reading the persisted file back strips the newline, so the list read back
differs from the list saved. -/
theorem round_trip_newline_cex :
    githubMatch "https://github.com/a/b\n" = true ∧
    save_repos ["https://github.com/a/b\n"] "/x/custom_nodes"
        ⟨.ok true, .ok true, .ok "custom_nodes", .ok true⟩ true "utils" (fun _ => true) =
      ((true, "Repository list and required files saved successfully!"),
        some "https://github.com/a/b\n") ∧
    (read_urls_from_file (some "https://github.com/a/b\n") "comfy-repos.txt").2.2 =
      ["https://github.com/a/b"] ∧
    ["https://github.com/a/b"] ≠ ["https://github.com/a/b\n"] :=
  ⟨by decide, by decide, by decide, by decide⟩

/-- C4 (amended): for every non-empty list of URLs that match the validation
pattern and contain no newline character, persisting them via `save_repos`
(under a valid target path and complete staged resources) writes them joined
by newline, and reading that contents back with `read_urls_from_file` yields
success with the same URLs in the same order. -/
theorem save_read_round_trip (repos : List String) (custom_nodes_path fp ud : String)
    (ops : PathOps) (srcExists : String → Bool)
    (hpath : (validate_path custom_nodes_path ops).1 = true)
    (hsrc : ∀ f ∈ required_files, srcExists f = true)
    (hne : repos ≠ [])
    (hvalid : ∀ u ∈ repos, githubMatch u = true ∧ '\n' ∉ u.data) :
    save_repos repos custom_nodes_path ops true ud srcExists =
      ((true, "Repository list and required files saved successfully!"),
        some (joinNl repos)) ∧
    read_urls_from_file (some (joinNl repos)) fp =
      (true, "Successfully read " ++ toString repos.length ++ " URLs from file", repos) := by
  have hall : ∀ u ∈ repos, githubMatch u = true := fun u hu => (hvalid u hu).1
  have hv := validate_all_valid repos hne hall
  have hcp : copy_required_files true ud srcExists =
      ((true, "Required files copied successfully"), required_files) := by
    simp [copy_required_files, copyLoop_all_success srcExists required_files [] hsrc]
  constructor
  · simp [save_repos, hpath, hv, hcp]
  · have hdata_nl : ∀ l ∈ repos.map String.data, '\n' ∉ l := by
      rintro l hl
      obtain ⟨u, hu, rfl⟩ := List.mem_map.mp hl
      exact (hvalid u hu).2
    have hmapne : repos.map String.data ≠ [] := by
      intro hm
      exact hne (List.map_eq_nil_iff.mp hm)
    have hsplit := splitOnNl_intercalate (repos.map String.data) hmapne hdata_nl
    have hlines : fileLines (joinNl repos) = repos := by
      unfold fileLines joinNl
      rw [show (String.mk (List.intercalate ['\n'] (repos.map String.data))).data =
        List.intercalate ['\n'] (repos.map String.data) from rfl, hsplit, List.map_map,
        map_mk_data]
    have hstrip : (fileLines (joinNl repos)).map stripStr = repos := by
      rw [hlines]
      exact map_eq_self_of repos stripStr (fun u hu => stripStr_eq_self u
        (shape_no_ws u.data ((githubMatch_iff u).mp (hall u hu)) (hvalid u hu).2))
    have hfil : repos.filter (fun l => l ≠ "") = repos := by
      apply List.filter_eq_self.mpr
      intro u hu
      have hd : u.data ≠ [] :=
        shape_ne_nil u.data ((githubMatch_iff u).mp (hall u hu))
      simp only [ne_eq, decide_eq_true_eq]
      intro he
      subst he
      exact hd rfl
    have hurls : ((fileLines (joinNl repos)).map stripStr).filter (fun l => l ≠ "") = repos := by
      rw [hstrip, hfil]
    have hie : repos.isEmpty = false := by
      rcases repos with _ | _
      · exact absurd rfl hne
      · rfl
    simp only [read_urls_from_file, hurls, hie, Bool.false_eq_true, if_false]

/-- C4 witness: a concrete one-element round trip through `save_repos` and
`read_urls_from_file`. -/
theorem save_read_round_trip_witness :
    save_repos ["https://github.com/a/b"] "/x/custom_nodes"
        ⟨.ok true, .ok true, .ok "custom_nodes", .ok true⟩ true "utils" (fun _ => true) =
      ((true, "Repository list and required files saved successfully!"),
        some (joinNl ["https://github.com/a/b"])) ∧
    read_urls_from_file (some (joinNl ["https://github.com/a/b"])) "comfy-repos.txt" =
      (true, "Successfully read " ++ toString (["https://github.com/a/b"]).length ++
        " URLs from file", ["https://github.com/a/b"]) :=
  save_read_round_trip ["https://github.com/a/b"] "/x/custom_nodes" "comfy-repos.txt"
    "utils" ⟨.ok true, .ok true, .ok "custom_nodes", .ok true⟩ (fun _ => true)
    (by decide) (by decide) (by decide) (by decide)

/-- C5: whenever `install_nodes` reaches the subprocess call (valid path and
staged script present), the working directory at the moment of the call is
the target directory, and the final working directory equals the original
one for every subprocess outcome — zero exit, non-zero exit, and a raised
invocation error alike. -/
theorem install_cwd_restored (custom_nodes_path : String) (ops : PathOps)
    (outcome : SubprocOutcome) (cwd0 : String)
    (hpath : (validate_path custom_nodes_path ops).1 = true) :
    (install_nodes custom_nodes_path ops true outcome cwd0).2.1 = cwd0 ∧
    (install_nodes custom_nodes_path ops true outcome cwd0).2.2 =
      some custom_nodes_path := by
  cases outcome <;> simp [install_nodes, hpath]

/-- C5 witness: the working directory is restored even when the invocation
itself raises. -/
theorem install_cwd_restored_witness :
    (install_nodes "/x/custom_nodes" ⟨.ok true, .ok true, .ok "custom_nodes", .ok true⟩
        true (.raised "boom") "/orig").2.1 = "/orig" ∧
    (install_nodes "/x/custom_nodes" ⟨.ok true, .ok true, .ok "custom_nodes", .ok true⟩
        true (.raised "boom") "/orig").2.2 = some "/x/custom_nodes" :=
  install_cwd_restored "/x/custom_nodes" ⟨.ok true, .ok true, .ok "custom_nodes", .ok true⟩
    (.raised "boom") "/orig" (by decide)

/-- C6: with a valid path, a missing staged clone script gives the
save-repository-list-first failure; with the script present, a completed
subprocess makes the success flag true iff its exit code is zero (a non-zero
exit is a normal `(false, report)` result), while a raised invocation error
is caught and turned into an `Installation error:` failure result — the two
failure kinds stay distinct. -/
theorem install_result_semantics (custom_nodes_path : String) (ops : PathOps)
    (scriptExists : Bool) (outcome : SubprocOutcome) (cwd0 : String)
    (hpath : (validate_path custom_nodes_path ops).1 = true) :
    (scriptExists = false →
      install_nodes custom_nodes_path ops scriptExists outcome cwd0 =
        ((false, "Error: clone-custom-nodes.py not found! Please save repository list first."),
          cwd0, none)) ∧
    (∀ rc stdout stderr, scriptExists = true → outcome = .completed rc stdout stderr →
      ((install_nodes custom_nodes_path ops scriptExists outcome cwd0).1.1 = true ↔
          rc = 0) ∧
      (install_nodes custom_nodes_path ops scriptExists outcome cwd0).1.2 =
        formattedOutput stdout stderr) ∧
    (∀ m, scriptExists = true → outcome = .raised m →
      (install_nodes custom_nodes_path ops scriptExists outcome cwd0).1 =
        (false, "Installation error: " ++ m)) := by
  refine ⟨?_, ?_, ?_⟩
  · rintro rfl
    simp [install_nodes, hpath]
  · rintro rc stdout stderr rfl rfl
    simp [install_nodes, hpath]
  · rintro m rfl rfl
    simp [install_nodes, hpath]

/-- C6 witness: exit code 2 yields a normal false result with the formatted
report, and a raised invocation error yields the distinct caught failure. -/
theorem install_result_semantics_witness :
    (install_nodes "/x/custom_nodes" ⟨.ok true, .ok true, .ok "custom_nodes", .ok true⟩
        true (.completed 2 "out" "err") "/orig").1.1 = false ∧
    (install_nodes "/x/custom_nodes" ⟨.ok true, .ok true, .ok "custom_nodes", .ok true⟩
        true (.raised "no exec") "/orig").1 =
      (false, "Installation error: no exec") := by
  constructor
  · have h := (install_result_semantics "/x/custom_nodes"
      ⟨.ok true, .ok true, .ok "custom_nodes", .ok true⟩ true
      (.completed 2 "out" "err") "/orig" (by decide)).2.1 2 "out" "err" rfl rfl
    cases hb : (install_nodes "/x/custom_nodes"
        ⟨.ok true, .ok true, .ok "custom_nodes", .ok true⟩ true
        (.completed 2 "out" "err") "/orig").1.1
    · rfl
    · exact absurd (h.1.mp hb) (by decide)
  · exact (install_result_semantics "/x/custom_nodes"
      ⟨.ok true, .ok true, .ok "custom_nodes", .ok true⟩ true
      (.raised "no exec") "/orig" (by decide)).2.2 "no exec" rfl rfl

/-- C7: `validate_path` checks in a fixed order and returns the first
failing reason — empty/whitespace-only input, then a raised filesystem
error, then non-existence, then not-a-directory, then a base name other
than `custom_nodes`, then a parent without `main.py` — and a path passing
all checks is valid; the function is a total function into a result pair,
so it never raises: a query's exception surfaces only as the reported
failure reason. -/
theorem validate_path_check_order (path : String) (ops : PathOps) :
    (stripStr path = "" → validate_path path ops = (false, "Path cannot be empty!")) ∧
    (∀ e, stripStr path ≠ "" → ops.pexists = .error e →
      validate_path path ops = (false, "Error validating path: " ++ e)) ∧
    (stripStr path ≠ "" → ops.pexists = .ok false →
      validate_path path ops = (false, "Path does not exist: " ++ path)) ∧
    (stripStr path ≠ "" → ops.pexists = .ok true → ops.is_dir = .ok false →
      validate_path path ops = (false, "Path is not a directory: " ++ path)) ∧
    (∀ nm, stripStr path ≠ "" → ops.pexists = .ok true → ops.is_dir = .ok true →
      ops.baseName = .ok nm → nm ≠ "custom_nodes" →
      validate_path path ops = (false, "Directory must be named 'custom_nodes'")) ∧
    (stripStr path ≠ "" → ops.pexists = .ok true → ops.is_dir = .ok true →
      ops.baseName = .ok "custom_nodes" → ops.parentMainExists = .ok false →
      validate_path path ops =
        (false,
          "Directory does not appear to be a ComfyUI installation (main.py not found in parent directory)")) ∧
    (stripStr path ≠ "" → ops.pexists = .ok true → ops.is_dir = .ok true →
      ops.baseName = .ok "custom_nodes" → ops.parentMainExists = .ok true →
      validate_path path ops = (true, "Path is valid")) := by
  refine ⟨?_, ?_, ?_, ?_, ?_, ?_, ?_⟩ <;> intros <;> simp_all [validate_path]

/-- C7 witness: a well-formed `custom_nodes` directory with the marker file
present validates successfully. -/
theorem validate_path_check_order_witness :
    validate_path "/x/custom_nodes" ⟨.ok true, .ok true, .ok "custom_nodes", .ok true⟩ =
      (true, "Path is valid") :=
  (validate_path_check_order "/x/custom_nodes"
    ⟨.ok true, .ok true, .ok "custom_nodes", .ok true⟩).2.2.2.2.2.2
    (by decide) rfl rfl rfl rfl

/-- C8: `read_urls_from_file` on a missing file fails with the file-not-found
reason; on an existing file the returned list is exactly the file's lines
stripped of whitespace with empty results discarded, in order; success holds
iff that list is non-empty, an all-empty file fails with the no-URLs reason,
and a non-empty list is returned as-is without any pattern validation. -/
theorem read_urls_contract (fp c : String) :
    read_urls_from_file none fp = (false, "File not found: " ++ fp, []) ∧
    (read_urls_from_file (some c) fp).2.2 =
      ((fileLines c).map stripStr).filter (fun l => l ≠ "") ∧
    ((read_urls_from_file (some c) fp).1 = true ↔
      ((fileLines c).map stripStr).filter (fun l => l ≠ "") ≠ []) ∧
    (((fileLines c).map stripStr).filter (fun l => l ≠ "") ≠ [] →
      read_urls_from_file (some c) fp =
        (true,
          "Successfully read " ++
            toString (((fileLines c).map stripStr).filter (fun l => l ≠ "")).length ++
            " URLs from file",
          ((fileLines c).map stripStr).filter (fun l => l ≠ ""))) ∧
    (((fileLines c).map stripStr).filter (fun l => l ≠ "") = [] →
      read_urls_from_file (some c) fp = (false, "No URLs found in the file", [])) := by
  have hpos : ((fileLines c).map stripStr).filter (fun l => l ≠ "") = [] →
      read_urls_from_file (some c) fp = (false, "No URLs found in the file", []) := by
    intro hf
    simp only [read_urls_from_file]
    rw [if_pos (List.isEmpty_iff.mpr hf)]
  have hneg : ((fileLines c).map stripStr).filter (fun l => l ≠ "") ≠ [] →
      read_urls_from_file (some c) fp =
        (true,
          "Successfully read " ++
            toString (((fileLines c).map stripStr).filter (fun l => l ≠ "")).length ++
            " URLs from file",
          ((fileLines c).map stripStr).filter (fun l => l ≠ "")) := by
    intro hf
    simp only [read_urls_from_file]
    rw [if_neg (fun hcond => hf (List.isEmpty_iff.mp hcond))]
  refine ⟨rfl, ?_, ?_, hneg, hpos⟩
  · by_cases hf : ((fileLines c).map stripStr).filter (fun l => l ≠ "") = []
    · rw [hpos hf, hf]
    · rw [hneg hf]
  · by_cases hf : ((fileLines c).map stripStr).filter (fun l => l ≠ "") = []
    · rw [hpos hf]
      exact iff_of_false (by simp) (fun hn => hn hf)
    · rw [hneg hf]
      exact iff_of_true rfl hf

/-- C8 witness: a file whose single line does not match the GitHub pattern is
still read back successfully — no pattern validation is applied. -/
theorem read_urls_contract_witness :
    read_urls_from_file (some "not-a-url") "urls.txt" =
      (true, "Successfully read 1 URLs from file", ["not-a-url"]) ∧
    githubMatch "not-a-url" = false := by
  constructor
  · have h := (read_urls_contract "urls.txt" "not-a-url").2.2.2.1 (by decide)
    exact h.trans (by decide)
  · decide

/-- C9: `copy_required_files` succeeds iff the bundled resource directory
exists and every one of the fixed required files exists in it; a missing
resource directory is an overall failure, and a required file missing
mid-sequence is an overall failure even though the files before it were
already copied. -/
theorem copy_required_files_contract (utilsDirExists : Bool) (ud : String)
    (srcExists : String → Bool) :
    ((copy_required_files utilsDirExists ud srcExists).1.1 = true ↔
      utilsDirExists = true ∧ ∀ f ∈ required_files, srcExists f = true) ∧
    (utilsDirExists = false →
      copy_required_files utilsDirExists ud srcExists =
        ((false, "Utils directory not found: " ++ ud), [])) ∧
    (utilsDirExists = true → srcExists "clone-custom-nodes.py" = true →
      srcExists "package-preparation.py" = false →
      copy_required_files utilsDirExists ud srcExists =
        ((false, "Required file not found: package-preparation.py"),
          ["clone-custom-nodes.py"])) := by
  refine ⟨?_, ?_, ?_⟩
  · by_cases hu : utilsDirExists <;>
      simp [copy_required_files, hu, copyLoop_success_iff]
  · rintro rfl
    simp [copy_required_files]
  · rintro rfl h1 h2
    simp [copy_required_files, copyLoop, required_files, h1, h2]

/-- C9 witness: with the resource directory present and every required file
available, staging succeeds; with the second file missing, the overall
result is failure although the first file was copied. -/
theorem copy_required_files_contract_witness :
    (copy_required_files true "utils" (fun _ => true)).1.1 = true ∧
    copy_required_files true "utils"
        (fun f => f == "clone-custom-nodes.py" || f == "start-prep.bat") =
      ((false, "Required file not found: package-preparation.py"),
        ["clone-custom-nodes.py"]) := by
  constructor
  · exact (copy_required_files_contract true "utils" (fun _ => true)).1.mpr
      ⟨rfl, fun f _ => rfl⟩
  · exact (copy_required_files_contract true "utils"
      (fun f => f == "clone-custom-nodes.py" || f == "start-prep.bat")).2.2
      rfl (by decide) (by decide)

end AutoNodeCLI
